import Mathlib

/-!
Verification of the `runwind` backtrace backend (`src/backtrace/runwind.rs`).

The backend has three parts, all shallowly embedded here:

* registry construction (`CONTEXTS`): every loaded object is turned into an
  entry `(base_addr, text_svma range, debug context)` via
  `Context::new(obj.obj_file()).unwrap()`, then the vector is sorted by
  `base_addr` (`buildContexts`);
* per-frame symbol resolution (`Frame::resolve_symbol`): a binary search by
  `base_addr`, a text-range containment check on the module-relative address
  `svma`, and a query of the module's debug context, every outcome feeding a
  callback (`resolve_symbol` below returns the list of callback arguments);
* the stack walk (`Trace::trace`): a loop over the unwinder's `try_next`
  results, stopping at the first error, at exhaustion, or when the
  per-frame callback returns `false` (`trace` below).

Machine integers (`usize`) are modelled as `Nat`; every subtraction performed
by the embedded code is shown to be underflow-free where it matters, so `Nat`
truncation and `usize` semantics agree.  Rust panics (`unwrap`) are modelled
as `Except.error`.  `FnMut` callbacks are modelled by collecting the sequence
of arguments they are invoked with.
-/

namespace Runwind

/-- One inlined-frame record yielded by the debug-info reader
(`addr2line::Frame`): `function` is the optional function-name field, whose
`raw_name()` accessor may itself fail (`Except.error`) or produce a string. -/
structure FrameRecord where
  function : Option (Except Unit String)

/-- A module's debug context (`addr2line::Context`), reduced to the one
operation the backend uses: `find_frames(svma)` either fails, or yields the
stream of results its iterator will produce.  The list holds the successive
successful-or-failed `next()` outcomes; the end of the list is the iterator
reporting `Ok(None)`. -/
def DebugContext : Type := Nat → Except Unit (List (Except Unit FrameRecord))

/-- One entry of `CONTEXTS`: `(obj.base_addr(), obj.text_svma(), context)`.
The Rust `Range<usize>` field `text_svma` is split into its `start` and `end`
bounds; `contains` on it is `text_start ≤ v ∧ v < text_stop`. -/
structure ModuleEntry where
  base_addr : Nat
  text_start : Nat
  text_stop : Nat
  context : DebugContext

/-- The placeholder name used on every failure path of `resolve_symbol`. -/
def unknownName : String := "<unknown>"

/-- `Symbol { name, addr }`.  The raw pointer `addr: *mut c_void` is modelled
as a `Nat`. -/
structure Symbol where
  name : String
  addr : Nat
deriving DecidableEq

/-- The `Symbol` built on every failure path: `{ "<unknown>", addr }`. -/
def unknownSymbol (addr : Nat) : Symbol :=
  { name := unknownName, addr := addr }

/-- `Frame { addr }`. -/
structure Frame where
  addr : Nat
deriving DecidableEq

/-- `Frame::ip`. -/
def Frame.ip (f : Frame) : Nat := f.addr

/-- `Frame::symbol_address` (the `usize → *mut c_void` cast is dropped). -/
def Frame.symbol_address (f : Frame) : Nat := f.addr

/-- `Symbol::name`: always `Some`, the UTF-8 bytes of the stored name. -/
def Symbol.name_opt (s : Symbol) : Option (List UInt8) :=
  some s.name.toUTF8.toList

/-- `Symbol::addr`: always `Some`. -/
def Symbol.addr_opt (s : Symbol) : Option Nat :=
  some s.addr

/-- `Symbol::lineno`: always `None`. -/
def Symbol.lineno (_s : Symbol) : Option Nat :=
  none

/-- `Symbol::filename`: always `None` (the `PathBuf` payload never occurs). -/
def Symbol.filename (_s : Symbol) : Option String :=
  none

/-!
## Binary search

`CONTEXTS.binary_search_by_key(&self.addr, |(base_addr, _, _)| *base_addr)`
is Rust's `slice::binary_search_by`, embedded verbatim: `left`/`right`
bracket the unexamined region, `mid = left + (right - left) / 2`, and the
result is `Ok(mid)` on an exact key match or `Err(left)` with the insertion
point.  The loop is driven by fuel; `binary_search` supplies enough fuel
that it is never exhausted (`binarySearchAux_fuel_irrelevant` below makes
this precise through the lemmas that never assume exhaustion is reached).
-/

/-- The loop of Rust's `slice::binary_search_by` over the key list. -/
def binarySearchAux (keys : List Nat) (target : Nat) :
    Nat → Nat → Nat → Except Nat Nat
  | left, _, 0 => .error left
  | left, right, fuel + 1 =>
    if left < right then
      let mid := left + (right - left) / 2
      let k := keys.getD mid 0
      if k < target then binarySearchAux keys target (mid + 1) right fuel
      else if target < k then binarySearchAux keys target left mid fuel
      else .ok mid
    else .error left

/-- `slice::binary_search_by_key` on the list of keys. -/
def binary_search (keys : List Nat) (target : Nat) : Except Nat Nat :=
  binarySearchAux keys target 0 keys.length (keys.length + 1)

/-!
## Symbol resolution

`resolve_symbol` returns the list of `Symbol` values passed to the callback,
in order.  The Rust `loop` over `frames.next()` exits on its first
iteration in every arm (`Ok(Some(_))` and `Err(_)` return, `Ok(None)`
breaks), so it is a single `match` on the first iterator outcome; `break`
falls off the end of the function without invoking the callback, which is
the empty list here.
-/

/-- The name computed from the first frame record:
`frame.function.as_ref().and_then(|f| f.raw_name().ok()).map(to_string)
.unwrap_or("<unknown>")`. -/
def frameName (r : FrameRecord) : String :=
  ((r.function.bind fun f => f.toOption).getD unknownName)

/-- The part of `Frame::resolve_symbol` after the owning entry
`(base_addr, text_range, context)` has been selected: range check on
`svma = addr - base_addr`, then the debug query. -/
def resolveInModule (e : ModuleEntry) (addr : Nat) : List Symbol :=
  let svma := addr - e.base_addr
  if ¬ (e.text_start ≤ svma ∧ svma < e.text_stop) then
    [unknownSymbol addr]
  else
    match e.context svma with
    | .error _ => [unknownSymbol addr]
    | .ok [] => []
    | .ok (.ok r :: _) => [{ name := frameName r, addr := addr }]
    | .ok (.error _ :: _) => [unknownSymbol addr]

/-- The key list the registry is searched by. -/
def keysOf (ctxts : List ModuleEntry) : List Nat :=
  ctxts.map (fun e => e.base_addr)

/-- `Frame::resolve_symbol`, with the registry `CONTEXTS` passed explicitly;
the result is the list of callback invocations.  The `none` arm of the
indexing models the panic of `CONTEXTS[idx - 1]` on an out-of-range index;
`bs_err_le_length` below shows it is unreachable. -/
def resolve_symbol (ctxts : List ModuleEntry) (addr : Nat) : List Symbol :=
  match binary_search (keysOf ctxts) addr with
  | .ok _ => [unknownSymbol addr]
  | .error idx =>
    if idx = 0 then
      [unknownSymbol addr]
    else
      match ctxts[idx - 1]? with
      | some e => resolveInModule e addr
      | none => []

/-- `Frame::resolve_symbol` as a method on `Frame`. -/
def Frame.resolve (ctxts : List ModuleEntry) (f : Frame) : List Symbol :=
  resolve_symbol ctxts f.addr

/-!
## Registry construction

`CONTEXTS` is built by pushing, for each object of `runwind::get_objects()`,
`(obj.base_addr(), obj.text_svma(), Context::new(obj.obj_file()).unwrap())`
and then sorting by `base_addr`.  `ObjectInfo.build` is the outcome of
`Context::new` for that object; `unwrap` turns its failure into a panic of
the whole construction, modelled as `Except.error`.
-/

/-- One object of `runwind::get_objects()` together with the outcome of
`Context::new(obj.obj_file())` for it. -/
structure ObjectInfo where
  base_addr : Nat
  text_start : Nat
  text_stop : Nat
  build : Except Unit DebugContext

/-- The `for` loop of the `CONTEXTS` initializer: push one tuple per object,
panicking (`Except.error`) at the first object whose context cannot be
built. -/
def buildList (objs : List ObjectInfo) : Except Unit (List ModuleEntry) :=
  match objs with
  | [] => .ok []
  | o :: rest =>
    match o.build with
    | .error e => .error e
    | .ok c =>
      (buildList rest).map
        (fun l =>
          { base_addr := o.base_addr, text_start := o.text_start,
            text_stop := o.text_stop, context := c } :: l)

/-- The comparison of `contexts.sort_by_key(|(base_addr, _, _)| *base_addr)`
(a stable sort, modelled by `List.mergeSort`, itself stable). -/
def entryLe (a b : ModuleEntry) : Bool :=
  a.base_addr ≤ b.base_addr

/-- The full `CONTEXTS` initializer: build the list, then sort it by
`base_addr`. -/
def buildContexts (objs : List ObjectInfo) : Except Unit (List ModuleEntry) :=
  (buildList objs).map (fun l => l.mergeSort entryLe)

/-!
## Stack walking

`Trace::trace` extracts `ip`/`sp`/`bp` from the `ucontext` at fixed platform
offsets (out of scope here) and then loops
`while let Ok(Some(frame)) = iter.try_next() { if !cb(&Frame{addr}) break }`.
The unwinding engine is modelled by the stream of its successive `try_next`
outcomes: an `Except.error` element is an engine error, the end of the list
is `Ok(None)` (exhaustion).  The result is the list of frames passed to the
callback, in order. -/

/-- The walk loop of `Trace::trace` over the engine's `try_next` stream. -/
def trace (stream : List (Except Unit Nat)) (cb : Frame → Bool) : List Frame :=
  match stream with
  | [] => []
  | .error _ :: _ => []
  | .ok a :: rest =>
    if cb { addr := a } then { addr := a } :: trace rest cb
    else [{ addr := a }]

/-!
## Auxiliary predicates
-/

/-- `addr` lies in the module's half-open interval: the entry owns the
address in the sense of the lookup (`base ≤ addr` and
`svma = addr - base ∈ text_range`). -/
def ContainsAddr (e : ModuleEntry) (addr : Nat) : Prop :=
  e.base_addr ≤ addr ∧
    e.text_start ≤ addr - e.base_addr ∧ addr - e.base_addr < e.text_stop

instance (e : ModuleEntry) (addr : Nat) : Decidable (ContainsAddr e addr) := by
  unfold ContainsAddr
  infer_instance

/-- The key list is sorted (non-strictly). -/
def SortedKeys (keys : List Nat) : Prop :=
  List.Pairwise (· ≤ ·) keys

instance (keys : List Nat) : Decidable (SortedKeys keys) := by
  unfold SortedKeys
  infer_instance

/-!
## Helper lemmas: sortedness and indexing
-/

theorem sortedKeys_getD_le {keys : List Nat} (hs : SortedKeys keys) {i j : Nat}
    (hij : i ≤ j) (hj : j < keys.length) : keys.getD i 0 ≤ keys.getD j 0 := by
  rcases Nat.eq_or_lt_of_le hij with rfl | hlt
  · exact Nat.le_refl _
  · have hi : i < keys.length := Nat.lt_of_lt_of_le hlt (Nat.le_of_lt hj)
    rw [List.getD_eq_getElem?_getD, List.getD_eq_getElem?_getD,
        List.getElem?_eq_getElem hi, List.getElem?_eq_getElem hj]
    exact List.pairwise_iff_getElem.mp hs i j hi hj hlt

theorem keysOf_length (ctxts : List ModuleEntry) :
    (keysOf ctxts).length = ctxts.length :=
  List.length_map _ _

theorem keysOf_getD (ctxts : List ModuleEntry) (j : Nat) (e : ModuleEntry)
    (h : ctxts[j]? = some e) : (keysOf ctxts).getD j 0 = e.base_addr := by
  rw [List.getD_eq_getElem?_getD, keysOf, List.getElem?_map, h]
  rfl

/-!
## Helper lemmas: binary search

Everything proved about `binarySearchAux` assumes only what Rust's
`slice::binary_search_by` documents: on a sorted slice it returns `Ok(i)` at
a matching index when the key is present, and otherwise `Err(idx)` with
`idx` the insertion point.
-/

theorem bsAux_ok_getD (keys : List Nat) (t : Nat) :
    ∀ fuel left right i, binarySearchAux keys t left right fuel = .ok i →
      keys.getD i 0 = t ∧ left ≤ i ∧ i < right := by
  intro fuel
  induction fuel with
  | zero => intro left right i h; simp [binarySearchAux] at h
  | succ fuel ih =>
    intro left right i h
    by_cases hlr : left < right
    · simp only [binarySearchAux, if_pos hlr] at h
      by_cases h1 : keys.getD (left + (right - left) / 2) 0 < t
      · simp only [if_pos h1] at h
        obtain ⟨he, hl, hr⟩ := ih _ _ _ h
        exact ⟨he, by omega, hr⟩
      · simp only [if_neg h1] at h
        by_cases h2 : t < keys.getD (left + (right - left) / 2) 0
        · simp only [if_pos h2] at h
          obtain ⟨he, hl, hr⟩ := ih _ _ _ h
          exact ⟨he, hl, by omega⟩
        · simp only [if_neg h2] at h
          injection h with h
          subst h
          exact ⟨by omega, by omega, by omega⟩
    · simp [binarySearchAux, if_neg hlr] at h

theorem bsAux_err_range (keys : List Nat) (t : Nat) :
    ∀ fuel left right idx, left ≤ right →
      binarySearchAux keys t left right fuel = .error idx →
      left ≤ idx ∧ idx ≤ right := by
  intro fuel
  induction fuel with
  | zero =>
    intro left right idx hlr h
    simp only [binarySearchAux] at h
    injection h with h
    subst h
    exact ⟨Nat.le_refl _, hlr⟩
  | succ fuel ih =>
    intro left right idx hlr h
    by_cases hc : left < right
    · simp only [binarySearchAux, if_pos hc] at h
      by_cases h1 : keys.getD (left + (right - left) / 2) 0 < t
      · simp only [if_pos h1] at h
        obtain ⟨ha, hb⟩ := ih _ _ _ (by omega) h
        exact ⟨by omega, hb⟩
      · simp only [if_neg h1] at h
        by_cases h2 : t < keys.getD (left + (right - left) / 2) 0
        · simp only [if_pos h2] at h
          obtain ⟨ha, hb⟩ := ih _ _ _ (by omega) h
          exact ⟨ha, by omega⟩
        · simp only [if_neg h2] at h
          exact absurd h (by simp)
    · simp only [binarySearchAux, if_neg hc] at h
      injection h with h
      subst h
      exact ⟨Nat.le_refl _, hlr⟩

theorem bsAux_err_bounds (keys : List Nat) (t : Nat) (hs : SortedKeys keys) :
    ∀ fuel left right idx,
      right ≤ keys.length →
      right - left < fuel →
      (∀ j, j < left → keys.getD j 0 < t) →
      (∀ j, right ≤ j → j < keys.length → t < keys.getD j 0) →
      binarySearchAux keys t left right fuel = .error idx →
      (∀ j, j < idx → keys.getD j 0 < t) ∧
      (∀ j, idx ≤ j → j < keys.length → t < keys.getD j 0) := by
  intro fuel
  induction fuel with
  | zero => intro left right idx hr hf _ _ _; omega
  | succ fuel ih =>
    intro left right idx hr hf hleft hright h
    by_cases hlr : left < right
    · simp only [binarySearchAux, if_pos hlr] at h
      by_cases h1 : keys.getD (left + (right - left) / 2) 0 < t
      · simp only [if_pos h1] at h
        refine ih (left + (right - left) / 2 + 1) right idx hr (by omega) ?_ hright h
        intro j hj
        have hmono : keys.getD j 0 ≤ keys.getD (left + (right - left) / 2) 0 :=
          sortedKeys_getD_le hs (by omega) (by omega)
        omega
      · simp only [if_neg h1] at h
        by_cases h2 : t < keys.getD (left + (right - left) / 2) 0
        · simp only [if_pos h2] at h
          refine ih left (left + (right - left) / 2) idx (by omega) (by omega) hleft ?_ h
          intro j hj hjlen
          have hmono : keys.getD (left + (right - left) / 2) 0 ≤ keys.getD j 0 :=
            sortedKeys_getD_le hs hj hjlen
          omega
        · simp only [if_neg h2] at h
          exact absurd h (by simp)
    · simp only [binarySearchAux, if_neg hlr] at h
      injection h with h
      subst h
      exact ⟨hleft, fun j hj hjl => hright j (by omega) hjl⟩

theorem bsAux_found (keys : List Nat) (t : Nat) (hs : SortedKeys keys) :
    ∀ fuel left right,
      right ≤ keys.length →
      right - left < fuel →
      (∃ j, left ≤ j ∧ j < right ∧ keys.getD j 0 = t) →
      ∃ i, binarySearchAux keys t left right fuel = .ok i := by
  intro fuel
  induction fuel with
  | zero =>
    intro left right _ hf hj
    obtain ⟨j, hj1, hj2, _⟩ := hj
    omega
  | succ fuel ih =>
    intro left right hr hf hj
    obtain ⟨j, hj1, hj2, hj3⟩ := hj
    have hlr : left < right := by omega
    by_cases h1 : keys.getD (left + (right - left) / 2) 0 < t
    · have hjgt : left + (right - left) / 2 < j := by
        by_contra hc
        have hmono : keys.getD j 0 ≤ keys.getD (left + (right - left) / 2) 0 :=
          sortedKeys_getD_le hs (by omega) (by omega)
        omega
      obtain ⟨i, hi⟩ :=
        ih (left + (right - left) / 2 + 1) right hr (by omega) ⟨j, by omega, hj2, hj3⟩
      refine ⟨i, ?_⟩
      simp only [binarySearchAux, if_pos hlr, if_pos h1]
      exact hi
    · by_cases h2 : t < keys.getD (left + (right - left) / 2) 0
      · have hjlt : j < left + (right - left) / 2 := by
          by_contra hc
          have hmono : keys.getD (left + (right - left) / 2) 0 ≤ keys.getD j 0 :=
            sortedKeys_getD_le hs (by omega) (by omega)
          omega
        obtain ⟨i, hi⟩ :=
          ih left (left + (right - left) / 2) (by omega) (by omega) ⟨j, hj1, by omega, hj3⟩
        refine ⟨i, ?_⟩
        simp only [binarySearchAux, if_pos hlr, if_pos h2, if_neg h1]
        exact hi
      · refine ⟨left + (right - left) / 2, ?_⟩
        simp only [binarySearchAux, if_pos hlr, if_neg h1, if_neg h2]

theorem binary_search_err (keys : List Nat) (t : Nat) (idx : Nat)
    (hs : SortedKeys keys) (h : binary_search keys t = .error idx) :
    idx ≤ keys.length ∧
      (∀ j, j < idx → keys.getD j 0 < t) ∧
      (∀ j, idx ≤ j → j < keys.length → t < keys.getD j 0) := by
  have hr := bsAux_err_range keys t (keys.length + 1) 0 keys.length idx
    (Nat.zero_le _) h
  have hb := bsAux_err_bounds keys t hs (keys.length + 1) 0 keys.length idx
    (Nat.le_refl _) (by omega) (by omega) (by omega) h
  exact ⟨hr.2, hb.1, hb.2⟩

theorem binary_search_found (keys : List Nat) (t : Nat) (hs : SortedKeys keys)
    (h : ∃ j, j < keys.length ∧ keys.getD j 0 = t) :
    ∃ i, binary_search keys t = .ok i := by
  obtain ⟨j, hj1, hj2⟩ := h
  exact bsAux_found keys t hs (keys.length + 1) 0 keys.length (Nat.le_refl _)
    (by omega) ⟨j, Nat.zero_le _, hj1, hj2⟩

/-!
## Helper lemmas: registry construction
-/

theorem buildList_map_base (objs : List ObjectInfo) (l : List ModuleEntry)
    (h : buildList objs = .ok l) :
    l.map (fun e => e.base_addr) = objs.map (fun o => o.base_addr) := by
  induction objs generalizing l with
  | nil =>
    simp only [buildList] at h
    injection h with h
    subst h
    rfl
  | cons o rest ih =>
    simp only [buildList] at h
    cases hb : o.build with
    | error e => rw [hb] at h; exact absurd h (by simp)
    | ok c =>
      rw [hb] at h
      cases hrest : buildList rest with
      | error e => rw [hrest] at h; exact absurd h (by simp [Except.map])
      | ok l' =>
        rw [hrest] at h
        simp only [Except.map] at h
        injection h with h
        subst h
        simp [ih l' hrest]

theorem buildList_error (objs : List ObjectInfo)
    (h : ∃ o ∈ objs, o.build = .error ()) :
    buildList objs = .error () := by
  induction objs with
  | nil => simp at h
  | cons o rest ih =>
    obtain ⟨o', ho', hb⟩ := h
    rcases List.mem_cons.mp ho' with rfl | hmem
    · simp [buildList, hb]
    · simp only [buildList]
      cases hob : o.build with
      | error e => cases e; rfl
      | ok c => rw [ih ⟨o', hmem, hb⟩]; rfl

theorem buildContexts_ok_elim (objs : List ObjectInfo) (l : List ModuleEntry)
    (h : buildContexts objs = .ok l) :
    ∃ l', buildList objs = .ok l' ∧ l = l'.mergeSort entryLe := by
  unfold buildContexts at h
  cases hb : buildList objs with
  | error e => rw [hb] at h; exact absurd h (by simp [Except.map])
  | ok l' =>
    rw [hb] at h
    simp only [Except.map] at h
    injection h with h
    exact ⟨l', rfl, h.symm⟩

theorem entryLe_trans (a b c : ModuleEntry) (h1 : entryLe a b = true)
    (h2 : entryLe b c = true) : entryLe a c = true := by
  simp only [entryLe, decide_eq_true_eq] at *
  omega

theorem entryLe_total (a b : ModuleEntry) : (entryLe a b || entryLe b a) = true := by
  simp only [entryLe, Bool.or_eq_true, decide_eq_true_eq]
  omega

theorem buildContexts_pairwise_le (objs : List ObjectInfo) (l : List ModuleEntry)
    (h : buildContexts objs = .ok l) :
    l.Pairwise (fun a b => a.base_addr ≤ b.base_addr) := by
  obtain ⟨l', _, rfl⟩ := buildContexts_ok_elim objs l h
  refine (List.sorted_mergeSort entryLe_trans entryLe_total l').imp ?_
  intro a b hab
  simpa [entryLe] using hab

theorem buildContexts_sortedKeys (objs : List ObjectInfo) (l : List ModuleEntry)
    (h : buildContexts objs = .ok l) : SortedKeys (keysOf l) := by
  unfold SortedKeys keysOf
  exact (buildContexts_pairwise_le objs l h).map _ (fun _ _ hab => hab)

/-!
## Helper lemmas: the walk loop
-/

theorem trace_error_append (front rest : List (Except Unit Nat)) (e : Unit)
    (cb : Frame → Bool) :
    trace (front ++ .error e :: rest) cb = trace front cb := by
  induction front with
  | nil => rfl
  | cons x front ih =>
    cases x with
    | error e' => rfl
    | ok a =>
      simp only [List.cons_append, trace, List.append_eq]
      rw [ih]

theorem trace_dropLast_cb (stream : List (Except Unit Nat)) (cb : Frame → Bool) :
    ∀ f ∈ (trace stream cb).dropLast, cb f = true := by
  induction stream with
  | nil => intro f hf; simp [trace] at hf
  | cons x rest ih =>
    cases x with
    | error e => intro f hf; simp [trace] at hf
    | ok a =>
      intro f hf
      simp only [trace] at hf
      by_cases hc : cb { addr := a }
      · rw [if_pos hc] at hf
        cases htr : trace rest cb with
        | nil => rw [htr] at hf; simp at hf
        | cons y ys =>
          rw [htr, List.dropLast_cons₂] at hf
          rcases List.mem_cons.mp hf with rfl | hf'
          · exact hc
          · exact ih f (by rw [htr]; exact hf')
      · rw [if_neg hc] at hf
        simp at hf

/-!
## Helper lemmas: symbol resolution
-/

theorem resolveInModule_addr (e : ModuleEntry) (addr : Nat) :
    ∀ s ∈ resolveInModule e addr, s.addr = addr := by
  intro s hsm
  simp only [resolveInModule] at hsm
  split at hsm
  · rw [List.mem_singleton] at hsm; subst hsm; rfl
  · split at hsm
    · rw [List.mem_singleton] at hsm; subst hsm; rfl
    · simp at hsm
    · rw [List.mem_singleton] at hsm; subst hsm; rfl
    · rw [List.mem_singleton] at hsm; subst hsm; rfl

theorem resolve_symbol_addr (ctxts : List ModuleEntry) (addr : Nat) :
    ∀ s ∈ resolve_symbol ctxts addr, s.addr = addr := by
  intro s hsm
  unfold resolve_symbol at hsm
  split at hsm
  · rw [List.mem_singleton] at hsm; subst hsm; rfl
  · split at hsm
    · rw [List.mem_singleton] at hsm; subst hsm; rfl
    · split at hsm
      · exact resolveInModule_addr _ _ s hsm
      · simp at hsm

/-!
## Concrete instances used by counterexamples and witnesses
-/

/-- A debug context answering every query with one record named `nm`. -/
def namedContext (nm : String) : DebugContext :=
  fun _ => .ok [.ok { function := some (.ok nm) }]

/-- A debug context whose query succeeds with an empty record sequence. -/
def emptyContext : DebugContext :=
  fun _ => .ok []

/-- A module loaded at `0x1000` with text range `[0x0, 0x500)` whose debug
info names every address `"main"`. -/
def baseHitEntry : ModuleEntry :=
  { base_addr := 4096, text_start := 0, text_stop := 1280,
    context := namedContext "main" }

/-- A module loaded at `0x1000` with text range `[0x0, 0x500)` whose debug
info names every address `"compute_sum"`. -/
def csEntry : ModuleEntry :=
  { base_addr := 4096, text_start := 0, text_stop := 1280,
    context := namedContext "compute_sum" }

/-- A module loaded at `0x1000` with text range `[0x0, 0x500)` whose debug
query succeeds but produces no records. -/
def emptyQueryEntry : ModuleEntry :=
  { base_addr := 4096, text_start := 0, text_stop := 1280,
    context := emptyContext }

/-- An enumerated object whose `Context::new` fails. -/
def failingObject : ObjectInfo :=
  { base_addr := 4096, text_start := 0, text_stop := 1280,
    build := .error () }

/-- An enumerated object at base `0x1000` whose context builds. -/
def okObjectA : ObjectInfo :=
  { base_addr := 4096, text_start := 0, text_stop := 100,
    build := .ok emptyContext }

/-- An enumerated object at base `0x2000` whose context builds. -/
def okObjectB : ObjectInfo :=
  { base_addr := 8192, text_start := 0, text_stop := 100,
    build := .ok emptyContext }

/-- The registry entry produced from `okObjectA`. -/
def okEntryA : ModuleEntry :=
  { base_addr := 4096, text_start := 0, text_stop := 100,
    context := emptyContext }

/-- The registry entry produced from `okObjectB`. -/
def okEntryB : ModuleEntry :=
  { base_addr := 8192, text_start := 0, text_stop := 100,
    context := emptyContext }

/-- An enumerated object that shares its base address with `dupObjectB`. -/
def dupObjectA : ObjectInfo :=
  { base_addr := 4096, text_start := 0, text_stop := 100,
    build := .ok emptyContext }

/-- An enumerated object that shares its base address with `dupObjectA`. -/
def dupObjectB : ObjectInfo :=
  { base_addr := 4096, text_start := 0, text_stop := 200,
    build := .ok emptyContext }

/-- A concrete per-frame callback: continue while the address is below 6. -/
def smallCb : Frame → Bool :=
  fun f => decide (f.addr < 6)

/-!
## Claim theorems
-/

/-- C1 counterexample: with a registry whose single entry has
`base_addr = 0x1000` and text range `[0, 0x500)` and whose debug info would
name the address `"main"`, the address `0x1000` is exactly the entry's base;
its `svma = 0` lies inside the text range (`ContainsAddr` holds) and the
debug query would succeed with the record `"main"`, yet `resolve_symbol`
yields the unknown placeholder, not `{"main", 0x1000}`: the exact-base case
is auto-rejected without the range check or the debug query the claim
requires. -/
theorem resolve_exact_base_cex :
    ContainsAddr baseHitEntry 4096 ∧
      baseHitEntry.context (4096 - baseHitEntry.base_addr) =
        .ok [.ok { function := some (.ok "main") }] ∧
      resolve_symbol [baseHitEntry] 4096 ≠ [{ name := "main", addr := 4096 }] ∧
      resolve_symbol [baseHitEntry] 4096 = [unknownSymbol 4096] := by
  refine ⟨by decide, rfl, by decide, rfl⟩

/-- C1 (amended): for every address exactly equal to some module entry's
`base_address` (with the registry keys sorted, as `CONTEXTS` guarantees),
the binary search hits its `Ok` arm and `Frame::resolve_symbol` immediately
invokes the callback once with `{"<unknown>", address}`: it does not compute
`svma`, does not validate `text_range` containment, and never reaches the
debug-query step. -/
theorem resolve_symbol_unknown_at_exact_base (ctxts : List ModuleEntry)
    (addr : Nat) (hs : SortedKeys (keysOf ctxts))
    (h : ∃ e ∈ ctxts, e.base_addr = addr) :
    resolve_symbol ctxts addr = [unknownSymbol addr] := by
  obtain ⟨e, hmem, hbase⟩ := h
  obtain ⟨j, hje⟩ := List.getElem?_of_mem hmem
  have hjlt : j < ctxts.length := (List.getElem?_eq_some.mp hje).1
  have hkey : (keysOf ctxts).getD j 0 = addr := by
    rw [keysOf_getD ctxts j e hje, hbase]
  obtain ⟨i, hbs⟩ := binary_search_found (keysOf ctxts) addr hs
    ⟨j, by rw [keysOf_length]; exact hjlt, hkey⟩
  simp only [resolve_symbol, hbs]

/-- Witness for the amended C1 theorem at the concrete registry
`[baseHitEntry]` and address `0x1000`. -/
theorem resolve_symbol_unknown_at_exact_base_witness :
    resolve_symbol [baseHitEntry] 4096 = [unknownSymbol 4096] :=
  resolve_symbol_unknown_at_exact_base [baseHitEntry] 4096 (by decide)
    ⟨baseHitEntry, List.mem_singleton.mpr rfl, rfl⟩

/-- C2 (code bug): with one module `{base = 0x1000, range = [0x0, 0x500)}`
and the address `0x1400`, the lookup succeeds (`svma = 0x400` is contained)
and the debug query succeeds with an empty record sequence; the claim and
the spec scenario demand one callback invocation with
`{"<unknown>", 0x1400}`, but the code's `Ok(None)` arm `break`s out of the
loop and falls off the end of `resolve_symbol` without ever invoking the
callback: the callback is invoked zero times. -/
theorem resolve_symbol_empty_query_no_callback :
    ContainsAddr emptyQueryEntry 5120 ∧
      emptyQueryEntry.context (5120 - emptyQueryEntry.base_addr) = .ok [] ∧
      resolve_symbol [emptyQueryEntry] 5120 = [] := by
  exact ⟨by decide, rfl, rfl⟩

/-- C3 counterexample: a single enumerated module whose debug context cannot
be built makes the whole `CONTEXTS` initializer panic
(`Context::new(obj.obj_file()).unwrap()`): construction fails hard instead
of silently omitting the module (which would have produced `Ok` of the
empty registry). -/
theorem buildContexts_panics_cex :
    buildContexts [failingObject] = .error () ∧
      buildContexts [failingObject] ≠ .ok [] := by
  refine ⟨rfl, fun h => ?_⟩
  rw [show buildContexts [failingObject] = .error () from rfl] at h
  exact Except.noConfusion h

/-- C3 (amended): registry construction fails hard on any failing module:
if some enumerated module's debug context cannot be built, the whole
initializer panics — the module is not omitted; and when construction
succeeds, no module was dropped: the registry holds exactly one entry per
enumerated module. -/
theorem buildContexts_fail_or_total (objs : List ObjectInfo) :
    ((∃ o ∈ objs, o.build = .error ()) → buildContexts objs = .error ()) ∧
      (∀ l, buildContexts objs = .ok l → l.length = objs.length) := by
  constructor
  · intro h
    unfold buildContexts
    rw [buildList_error objs h]
    rfl
  · intro l h
    obtain ⟨l', hbl, rfl⟩ := buildContexts_ok_elim objs l h
    rw [List.length_mergeSort]
    have hlen := congrArg List.length (buildList_map_base objs l' hbl)
    simpa using hlen

/-- Witness for the amended C3 theorem: one good and one failing module make
construction panic. -/
theorem buildContexts_fail_witness :
    buildContexts [okObjectA, failingObject] = .error () :=
  (buildContexts_fail_or_total [okObjectA, failingObject]).1
    ⟨failingObject, List.mem_cons_of_mem _ (List.mem_singleton.mpr rfl), rfl⟩

/-- C4: for every address contained in no known module's interval — the
registry may be empty, the address may sit below the first base, the binary
search may even hit an exact base match, or the greatest base ≤ address may
exist while `svma = address - base` falls outside that entry's text range —
`resolve_symbol` invokes the callback once with `{"<unknown>", address}`. -/
theorem resolve_symbol_unknown_outside (ctxts : List ModuleEntry) (addr : Nat)
    (hs : SortedKeys (keysOf ctxts))
    (h : ∀ e ∈ ctxts, ¬ ContainsAddr e addr) :
    resolve_symbol ctxts addr = [unknownSymbol addr] := by
  unfold resolve_symbol
  cases hbs : binary_search (keysOf ctxts) addr with
  | ok i => rfl
  | error idx =>
    by_cases hidx : idx = 0
    · simp [hidx]
    · obtain ⟨hlen, hlt, _⟩ := binary_search_err (keysOf ctxts) addr idx hs hbs
      rw [keysOf_length] at hlen
      have hjlt : idx - 1 < ctxts.length := by omega
      have hje : ctxts[idx - 1]? = some ctxts[idx - 1] :=
        List.getElem?_eq_getElem hjlt
      have hbase : ctxts[idx - 1].base_addr < addr := by
        have hk := hlt (idx - 1) (by omega)
        rwa [keysOf_getD ctxts (idx - 1) _ hje] at hk
      have hnc := h ctxts[idx - 1] (List.getElem_mem hjlt)
      simp only [if_neg hidx, hje]
      simp only [resolveInModule]
      have hcond : ¬ (ctxts[idx - 1].text_start ≤ addr - ctxts[idx - 1].base_addr ∧
          addr - ctxts[idx - 1].base_addr < ctxts[idx - 1].text_stop) :=
        fun hcon => hnc ⟨Nat.le_of_lt hbase, hcon.1, hcon.2⟩
      rw [if_pos hcond]

/-- Witness for C4 at two concrete inputs: the spec's empty-registry
scenario (address `0x50`), and an address far beyond a module's text
range. -/
theorem resolve_symbol_unknown_outside_witness :
    resolve_symbol [] 80 = [unknownSymbol 80] ∧
      resolve_symbol [csEntry] 99999 = [unknownSymbol 99999] :=
  ⟨resolve_symbol_unknown_outside [] 80 (by decide) (by decide),
   resolve_symbol_unknown_outside [csEntry] 99999 (by decide) (by decide)⟩

/-- C5: when the lookup has selected entry `e` and the debug query yields a
first record `r` (followed by arbitrary further records `rest`), the result
depends only on `r`: if `r`'s function name is present and decodable the
callback receives `{name, address}`, and if the name is absent or
undecodable it receives `{"<unknown>", address}` — with no fall-through to
`rest`. -/
theorem resolve_symbol_first_record (ctxts : List ModuleEntry) (addr idx : Nat)
    (e : ModuleEntry) (r : FrameRecord) (rest : List (Except Unit FrameRecord))
    (hbs : binary_search (keysOf ctxts) addr = .error idx) (hidx : idx ≠ 0)
    (he : ctxts[idx - 1]? = some e) (_hb : e.base_addr ≤ addr)
    (hrange : e.text_start ≤ addr - e.base_addr ∧
      addr - e.base_addr < e.text_stop)
    (hq : e.context (addr - e.base_addr) = .ok (.ok r :: rest)) :
    (∀ nm, r.function = some (.ok nm) →
        resolve_symbol ctxts addr = [{ name := nm, addr := addr }]) ∧
      ((r.function = none ∨ r.function = some (.error ())) →
        resolve_symbol ctxts addr = [unknownSymbol addr]) := by
  have hres : resolve_symbol ctxts addr = [{ name := frameName r, addr := addr }] := by
    simp only [resolve_symbol, hbs, if_neg hidx, he, resolveInModule]
    rw [if_neg (not_not_intro hrange), hq]
  constructor
  · intro nm hnm
    rw [hres]
    simp [frameName, hnm, Except.toOption]
  · intro hcase
    rw [hres]
    rcases hcase with hc | hc <;>
      simp [frameName, hc, Except.toOption, unknownSymbol, unknownName]

/-- Witness for C5: the spec scenario — a debug query returning one record
named `"compute_sum"` makes `resolve_symbol` yield
`{"compute_sum", addr}`. -/
theorem resolve_symbol_first_record_witness :
    resolve_symbol [csEntry] 5120 = [{ name := "compute_sum", addr := 5120 }] :=
  (resolve_symbol_first_record [csEntry] 5120 1 csEntry
      { function := some (.ok "compute_sum") } [] rfl (by decide) rfl
      (by decide) (by decide) rfl).1 "compute_sum" rfl

/-- C6: the walk loop emits no frame past a stop signal: an engine error
terminates the walk exactly as if the frames were exhausted at that point
(frames already emitted stay as they are), and every emitted frame except
possibly the last one had its callback return `true` — no frame is emitted
after the callback first returns `false`. -/
theorem trace_stops (front rest : List (Except Unit Nat)) (e : Unit)
    (stream : List (Except Unit Nat)) (cb : Frame → Bool) :
    trace (front ++ .error e :: rest) cb = trace front cb ∧
      ∀ f ∈ (trace stream cb).dropLast, cb f = true :=
  ⟨trace_error_append front rest e cb, trace_dropLast_cb stream cb⟩

/-- Witness for C6: a concrete error-terminated stream walks exactly like
its prefix, and on a concrete stream the non-final emitted frame satisfied
the callback. -/
theorem trace_stops_witness :
    trace [.ok 1, .error (), .ok 3] smallCb = trace [.ok 1] smallCb ∧
      smallCb { addr := 1 } = true :=
  ⟨(trace_stops [.ok 1] [.ok 3] () [] smallCb).1,
   (trace_stops [] [] () [.ok 1, .ok 9, .ok 3] smallCb).2 { addr := 1 } (by decide)⟩

/-- C7 counterexample: two enumerated modules sharing base address `0x1000`
both survive construction, so the registry holds two entries with the same
base address — `sort_by_key` orders them but removes no duplicates. -/
theorem buildContexts_dup_cex :
    (buildContexts [dupObjectA, dupObjectB]).map keysOf = .ok [4096, 4096] := by
  simp [buildContexts, buildList, dupObjectA, dupObjectB, Except.map,
    List.mergeSort, entryLe, keysOf]

/-- C7 (amended): after construction the registry is sorted by base address,
ascending, for any set of enumerated modules; it contains no duplicate base
addresses provided the enumerated modules' bases are pairwise distinct (a
duplicate enumerated base survives into the table). -/
theorem buildContexts_sorted_nodup (objs : List ObjectInfo)
    (l : List ModuleEntry) (h : buildContexts objs = .ok l) :
    l.Pairwise (fun a b => a.base_addr ≤ b.base_addr) ∧
      ((objs.map (fun o => o.base_addr)).Nodup →
        l.Pairwise (fun a b => a.base_addr < b.base_addr)) := by
  refine ⟨buildContexts_pairwise_le objs l h, fun hnd => ?_⟩
  obtain ⟨l', hbl, rfl⟩ := buildContexts_ok_elim objs l h
  have hperm : ((l'.mergeSort entryLe).map (fun e => e.base_addr)).Perm
      (l'.map (fun e => e.base_addr)) :=
    (List.mergeSort_perm l' entryLe).map _
  have hnd' : ((l'.mergeSort entryLe).map (fun e => e.base_addr)).Nodup := by
    rw [hperm.nodup_iff, buildList_map_base objs l' hbl]
    exact hnd
  have hne := List.pairwise_map.mp hnd'
  have hle := buildContexts_pairwise_le objs _ h
  exact (hle.and hne).imp (fun hab => Nat.lt_of_le_of_ne hab.1 hab.2)

/-- Witness for the amended C7 theorem: two modules with distinct bases give
a registry strictly sorted by base address. -/
theorem buildContexts_sorted_nodup_witness :
    [okEntryA, okEntryB].Pairwise (fun a b => a.base_addr < b.base_addr) :=
  (buildContexts_sorted_nodup [okObjectA, okObjectB] [okEntryA, okEntryB]
      (by simp [buildContexts, buildList, okObjectA, okObjectB, okEntryA,
        okEntryB, Except.map, List.mergeSort, entryLe])).2 (by decide)

/-- C8: for every `Symbol` value of this backend, the line-number accessor
returns `None` and the source-filename accessor returns `None`. -/
theorem symbol_lineno_filename_none (s : Symbol) :
    Symbol.lineno s = none ∧ Symbol.filename s = none :=
  ⟨rfl, rfl⟩

/-- C9: although the accessors are typed optional, for every `Symbol` value
of this backend `Symbol::name` returns `Some` (the UTF-8 bytes of the stored
name, which resolution sets to `"<unknown>"` at worst) and `Symbol::addr`
returns `Some`; neither is ever absent. -/
theorem symbol_name_addr_some (s : Symbol) :
    Symbol.name_opt s = some s.name.toUTF8.toList ∧
      Symbol.addr_opt s = some s.addr :=
  ⟨rfl, rfl⟩

/-- C10: in every branch of `resolve_symbol` the `Symbol` handed to the
callback carries `addr` equal to the frame's own `addr`, and the frame's
`ip()` and `symbol_address()` accessors also both equal that `addr`:
resolution never alters or rebases the reported address. -/
theorem resolve_symbol_addr_invariant (ctxts : List ModuleEntry) (f : Frame) :
    (∀ s ∈ Frame.resolve ctxts f, s.addr = f.addr) ∧
      Frame.ip f = f.addr ∧ Frame.symbol_address f = f.addr :=
  ⟨fun s hsm => resolve_symbol_addr ctxts f.addr s hsm, rfl, rfl⟩

/-- Witness for C10 at the empty registry and frame address `0x50`. -/
theorem resolve_symbol_addr_invariant_witness :
    (unknownSymbol 80).addr = 80 ∧ Frame.ip { addr := 80 } = 80 :=
  ⟨(resolve_symbol_addr_invariant [] { addr := 80 }).1 (unknownSymbol 80)
      (by decide),
   (resolve_symbol_addr_invariant [] { addr := 80 }).2.1⟩

end Runwind
